import Mathlib

/-!
Shallow embedding of `gnss_timeseries/network.py` (class `NetworkTimeSeries`
and the module-level scaling laws `mw_melgar` / `mw_crowel`), together with
theorems settling the specification claims about it.

Modelling conventions:
* Python floats are modelled by `ℝ`; where the distinction between finite
  floats and the special values `nan` / `inf` / `-inf` matters (the
  `math.isfinite` filter of `mw_from_pgd` and the masked samples of the
  aggregated Mw series) we use the surrogate type `PVal` below.
* Python dicts are association lists in insertion order (`dictLookup`,
  `dictInsert`, `dictErase` mirror `d[k]`, `d[k] = v`, `d.pop(k, None)`).
* numpy arrays are lists of reals; `np.arange`, `np.argmin` and the slice
  assignment `a[i1:i2] += b` are embedded by `arange`, `argminAbs`,
  `addSlice` / `incSlice`.  A numpy slice assignment whose right-hand side
  does not fit raises, which the embedding signals through `PyError`.
* The external collaborators (the `TransverseMercator` projector and the
  per-station `GnssTimeSeries` buffers) are parameters of the definitions
  that use them, as functions.
-/

noncomputable section

/-- Surrogate for a Python float where the special values matter:
a finite value, `nan`, `inf` or `-inf`. -/
inductive PVal where
  | num : ℝ → PVal
  | nan : PVal
  | inf : PVal
  | ninf : PVal

/-- `math.isfinite`: true exactly on finite floats (false on `nan`, `±inf`);
note that it is true on `0` and on negative values. -/
def PVal.isfinite : PVal → Bool
  | .num _ => true
  | _ => false

/-- Float semantics of `np.log10` on a scalar: positive finite values map to
`log10`, `0` maps to `-inf`, negative values map to `nan`. -/
def floatLog10 : PVal → PVal
  | .num x => if 0 < x then .num (Real.logb 10 x) else if x = 0 then .ninf else .nan
  | .inf => .inf
  | .ninf => .nan
  | .nan => .nan

/-- Multiplication of a float by a positive finite constant (the `100*pgd`
unit conversion). -/
def floatScale (c : ℝ) : PVal → PVal
  | .num x => .num (c * x)
  | .inf => .inf
  | .ninf => .ninf
  | .nan => .nan

/-- Addition of a finite constant to a float. -/
def floatAddC : PVal → ℝ → PVal
  | .num x, c => .num (x + c)
  | .inf, _ => .inf
  | .ninf, _ => .ninf
  | .nan, _ => .nan

/-- Division of a float by a finite constant (signed-zero subtleties of IEEE
division are not modelled: a zero divisor is treated as `+0`). -/
def floatDivC : PVal → ℝ → PVal
  | .num x, d => if d = 0 then (if x = 0 then .nan else if 0 < x then .inf else .ninf)
      else .num (x / d)
  | .inf, d => if 0 ≤ d then .inf else .ninf
  | .ninf, d => if 0 ≤ d then .ninf else .inf
  | .nan, _ => .nan

/-- Python `d[k]` on an insertion-ordered association list (first match). -/
def dictLookup {α : Type} (k : String) : List (String × α) → Option α
  | [] => none
  | p :: rest => if p.1 = k then some p.2 else dictLookup k rest

/-- Python `d[k] = v`: replace the entry in place if the key is present,
append it otherwise. -/
def dictInsert {α : Type} (k : String) (v : α) : List (String × α) → List (String × α)
  | [] => [(k, v)]
  | p :: rest => if p.1 = k then (k, v) :: rest else p :: dictInsert k v rest

/-- Python `d.pop(k, None)`: drop the entry with the given key, if any. -/
def dictErase {α : Type} (k : String) : List (String × α) → List (String × α)
  | [] => []
  | p :: rest => if p.1 = k then rest else p :: dictErase k rest

/-- `default_max_distance` (km), module constant of `network.py`. -/
def defaultMaxDistance : ℝ := 800

/-- `mw_melgar(pgd, r_hypo)` on finite positive arguments:
`(np.log10(pgd) + 4.434)/(1.047 - 0.138*np.log10(r_hypo))`. -/
def mw_melgar (pgd r_hypo : ℝ) : ℝ :=
  (Real.logb 10 pgd + 4.434) / (1.047 - 0.138 * Real.logb 10 r_hypo)

/-- `mw_crowel(pgd, r_hypo)` on finite positive arguments:
`(np.log(pgd) + 5.013)/(1.219 - 0.178*np.log(r_hypo))`. -/
def mw_crowel (pgd r_hypo : ℝ) : ℝ :=
  (Real.log pgd + 5.013) / (1.219 - 0.178 * Real.log r_hypo)

/-- `mw_melgar` evaluated on a scalar float that may be non-positive or
non-finite (the distance is a finite positive real in every call site). -/
def mwMelgarF (pgd : PVal) (r : ℝ) : PVal :=
  floatDivC (floatAddC (floatLog10 pgd) 4.434) (1.047 - 0.138 * Real.logb 10 r)

/-- `NetworkTimeSeries.mw_from_pgd(pgd_dict)`: iterate the distance dict;
for each station look its PGD up in `pgd_dict` (a `KeyError` is swallowed),
keep it only when `math.isfinite(pgd)`, and store
`(mw_melgar(100*pgd, r), r)` under the station code. -/
def mw_from_pgd (distDict : List (String × ℝ)) (pgdDict : List (String × PVal)) :
    List (String × (PVal × ℝ)) :=
  distDict.foldl (fun acc p =>
    match dictLookup p.1 pgdDict with
    | none => acc
    | some pgd =>
      if pgd.isfinite then dictInsert p.1 (mwMelgarF (floatScale 100 pgd) p.2, p.2) acc
      else acc) []

/-- Mutable state of a `NetworkTimeSeries` instance (the fields touched by the
claims).  The per-station buffers are external collaborator objects, kept as
opaque handles; `projCenter` is the current center of the `TransverseMercator`
projector `self._tm` and `projCalls` is a ghost counter of how many times the
projector has been invoked (`reset` plus every forward transform). -/
structure Net where
  n_sta : ℕ
  station_ts : List Unit
  ref_coords : List (Option (ℝ × ℝ))
  codes : List String
  code2index : List (String × ℕ)
  names : List String
  lat_range : ℝ × ℝ
  lon_range : ℝ × ℝ
  hypocenter : Option (ℝ × ℝ × ℝ)
  t_origin : Option ℝ
  distance_dict : List (String × ℝ)
  max_distance : Option ℝ
  projCenter : ℝ × ℝ
  projCalls : ℕ

/-- The state built by `NetworkTimeSeries.__init__`: empty registry, latitude
range sentinel `(100, -100)`, longitude range sentinel `(370, -200)`,
hypocenter / origin time / max distance all NaN (modelled `none`), projector
centered at `(0, 0)`. -/
def initNet : Net where
  n_sta := 0
  station_ts := []
  ref_coords := []
  codes := []
  code2index := []
  names := []
  lat_range := (100, -100)
  lon_range := (370, -200)
  hypocenter := none
  t_origin := none
  distance_dict := []
  max_distance := none
  projCenter := (0, 0)
  projCalls := 0

/-- `NetworkTimeSeries.add_station(code, ref_coords, name)`.  With
`ref_coords=None` the method only prints a warning and returns, leaving the
state untouched.  Otherwise it records the index, appends code / name /
reference coordinates / a fresh buffer, and updates each bounding range with
an `if`/`elif`: the minimum slot is updated when the new value is below it,
and only *otherwise* is the maximum slot compared and updated. -/
def addStation (s : Net) (code : String) (refc : Option (ℝ × ℝ)) (name : String) : Net :=
  match refc with
  | none => s
  | some rc =>
    { s with
      code2index := dictInsert code s.n_sta s.code2index
      n_sta := s.n_sta + 1
      codes := s.codes ++ [code]
      names := s.names ++ [name]
      ref_coords := s.ref_coords ++ [some rc]
      station_ts := s.station_ts ++ [()]
      lat_range :=
        if rc.2 < s.lat_range.1 then (rc.2, s.lat_range.2)
        else if rc.2 > s.lat_range.2 then (s.lat_range.1, rc.2)
        else s.lat_range
      lon_range :=
        if rc.1 < s.lon_range.1 then (rc.1, s.lon_range.2)
        else if rc.1 > s.lon_range.2 then (s.lon_range.1, rc.1)
        else s.lon_range }

/-- Registration of a list of stations `(code, (lon, lat))` on top of a state,
in order (all with reference coordinates supplied and empty display names). -/
def registerAll (s : Net) (l : List (String × ℝ × ℝ)) : Net :=
  l.foldl (fun st p => addStation st p.1 (some p.2) "") s

/-- The guard of `set_hypocenter_coords`: with no NaN in the stored hypocenter,
`max(|Δlon|, |Δlat|, 0.01*|Δdepth|) < 1e-5` makes the call a no-op. -/
def hypoTolNoOp (h : Option (ℝ × ℝ × ℝ)) (c : ℝ × ℝ × ℝ) : Bool :=
  match h with
  | none => false
  | some h0 =>
    decide (max (|c.1 - h0.1|) (max (|c.2.1 - h0.2.1|) (0.01 * |c.2.2 - h0.2.2|)) < 1e-5)

/-- One iteration of the station loop of `set_hypocenter_coords`: skip a
station without reference coordinates, otherwise project it in the frame
centered on the new hypocenter, compute
`r = sqrt(depth² + (x² + y²)*1e-6)` and either store `r` under the station
code (`r < max_distance`) or pop any prior entry. -/
def updateDistance (proj : ℝ × ℝ → ℝ × ℝ → ℝ × ℝ) (c : ℝ × ℝ × ℝ) (maxd : ℝ)
    (d : List (String × ℝ)) (p : String × Option (ℝ × ℝ)) : List (String × ℝ) :=
  match p.2 with
  | none => d
  | some rc =>
    let xy := proj (c.1, c.2.1) rc
    let r := Real.sqrt (c.2.2 * c.2.2 + (xy.1 * xy.1 + xy.2 * xy.2) * 1e-6)
    if r < maxd then dictInsert p.1 r d else dictErase p.1 d

/-- The number of stations with reference coordinates (forward projector calls
made by the station loop of `set_hypocenter_coords`). -/
def countCoords (l : List (Option (ℝ × ℝ))) : ℕ :=
  (l.filter Option.isSome).length

/-- `NetworkTimeSeries.set_hypocenter_coords(coords, max_distance)`.
Returns immediately when `coords is None`, or when the stored hypocenter has
no NaN and the new coordinates are within tolerance.  Otherwise it stores
`max_distance` (default 800), stores the hypocenter, re-centers the projector
on the new epicenter and runs the station distance loop.  The ghost counter
`projCalls` grows by one `reset` plus one forward call per station with
reference coordinates. -/
def setHypocenterCoords (proj : ℝ × ℝ → ℝ × ℝ → ℝ × ℝ) (s : Net)
    (coords : Option (ℝ × ℝ × ℝ)) (maxDistance : Option ℝ) : Net :=
  match coords with
  | none => s
  | some c =>
    if hypoTolNoOp s.hypocenter c then s
    else
      let maxd := maxDistance.getD defaultMaxDistance
      { s with
        max_distance := some maxd
        hypocenter := some c
        projCenter := (c.1, c.2.1)
        distance_dict :=
          (s.codes.zip s.ref_coords).foldl (updateDistance proj c maxd) s.distance_dict
        projCalls := s.projCalls + 1 + countCoords s.ref_coords }

/-- Exceptions the aggregator can raise: a dict lookup miss (`KeyError`),
indexing an empty array (`IndexError`), an operation on `None`
(`TypeError`), and a numpy broadcast shape mismatch (`ValueError`). -/
inductive PyError where
  | keyError : PyError
  | indexError : PyError
  | typeError : PyError
  | valueError : PyError
deriving DecidableEq

/-- `np.arange(start, stop, step)` for a positive step: the values
`start + k*step` for `k < ⌈(stop - start)/step⌉`. -/
def arange (start stop step : ℝ) : List ℝ :=
  (List.range (⌈(stop - start) / step⌉).toNat).map (fun k => start + k * step)

/-- Accumulator of `np.argmin(np.abs(l - c))`: current index, best index and
best distance so far (ties keep the earlier index, as numpy does). -/
def argminAbsGo (c : ℝ) : List ℝ → ℕ → ℕ → ℝ → ℕ
  | [], _, best, _ => best
  | x :: xs, i, best, bestv =>
    if |x - c| < bestv then argminAbsGo c xs (i + 1) i (|x - c|)
    else argminAbsGo c xs (i + 1) best bestv

/-- `np.argmin(np.abs(l - c))`; `0` on the empty list (numpy raises there,
which no reachable call site does). -/
def argminAbs (l : List ℝ) (c : ℝ) : ℕ :=
  match l with
  | [] => 0
  | x :: xs => argminAbsGo c xs 1 0 (|x - c|)

/-- Minimum of a list of reals (the `t_min = np.inf` loop seed followed by
running `min`); junk value `0` on the empty list, never used. -/
def listMin : List ℝ → ℝ
  | [] => 0
  | x :: xs => xs.foldl min x

/-- Maximum of a list of reals (seeded with `-np.inf` in the source). -/
def listMax : List ℝ → ℝ
  | [] => 0
  | x :: xs => xs.foldl max x

/-- The numpy slice assignment `mw[i1:i1+len(aux)] += aux`, in the case where
the slice has the full length `len(aux)` (otherwise numpy raises, which the
caller checks). -/
def addSlice (mw : List ℝ) (i1 : ℕ) (aux : List ℝ) : List ℝ :=
  (List.range mw.length).map (fun i =>
    if i1 ≤ i ∧ i < i1 + aux.length then mw.getD i 0 + aux.getD (i - i1) 0
    else mw.getD i 0)

/-- The numpy slice assignment `count[i1:i1+n] += 1`. -/
def incSlice (count : List ℕ) (i1 : ℕ) (n : ℕ) : List ℕ :=
  (List.range count.length).map (fun i =>
    if i1 ≤ i ∧ i < i1 + n then count.getD i 0 + 1
    else count.getD i 0)

/-- The station selection loop of `mw_timeseries_from_pgd` (lines 361-365):
walk the distance dict; skip stations beyond `max_distance` (the `or`
short-circuits, so no dict access happens for them); look the remaining ones
up in `pgd_dict` (a missing key raises `KeyError`); skip stations whose PGD
series is `None`; keep `(code, t_origin + r/vel_mask)` for the rest. -/
def selectStations (tOrigin velMask maxd : ℝ)
    (pgdDict : List (String × Option (List ℝ × List ℝ))) :
    List (String × ℝ) → Except PyError (List (String × ℝ))
  | [] => .ok []
  | (code, r) :: rest =>
    if r > maxd then selectStations tOrigin velMask maxd pgdDict rest
    else
      match dictLookup code pgdDict with
      | none => .error .keyError
      | some none => selectStations tOrigin velMask maxd pgdDict rest
      | some (some _) =>
        match selectStations tOrigin velMask maxd pgdDict rest with
        | .error e => .error e
        | .ok l => .ok ((code, tOrigin + r / velMask) :: l)

/-- The time-span loop (lines 372-379): for each kept station fetch its time
array and read `t[0]` and `t[-1]`.  A missing key or a `None` series cannot
occur for kept stations; an empty time array raises `IndexError`. -/
def headsLasts (pgdDict : List (String × Option (List ℝ × List ℝ))) :
    List (String × ℝ) → Except PyError (List (ℝ × ℝ))
  | [] => .ok []
  | (code, _) :: rest =>
    match dictLookup code pgdDict with
    | none => .error .keyError
    | some none => .error .typeError
    | some (some pt) =>
      match pt.2 with
      | [] => .error .indexError
      | h :: tt =>
        match headsLasts pgdDict rest with
        | .error e => .error e
        | .ok l => .ok ((h, (h :: tt).getLast (List.cons_ne_nil h tt)) :: l)

/-- The accumulation loop of `mw_timeseries_from_pgd` (lines 387-396): for
each kept station, skip it when its mask time is past its last sample;
otherwise find the sample index `k` nearest the mask time, map the retained
PGD tail through `mw_melgar(100*pgd, r)`, find where sample `k` lands on the
output grid, and add the tail into the running sum and contributor count.
A tail that does not fit on the remaining grid makes the numpy slice
assignment raise a broadcast `ValueError`. -/
def accumLoop (pgdDict : List (String × Option (List ℝ × List ℝ)))
    (distDict : List (String × ℝ)) (tOrigin : ℝ) (tmw : List ℝ) :
    List (String × ℝ) → List ℝ × List ℕ → Except PyError (List ℝ × List ℕ)
  | [], mc => .ok mc
  | (code, tm) :: rest, (mw, count) =>
    match dictLookup code pgdDict with
    | none => .error .keyError
    | some none => .error .typeError
    | some (some (pgd, t)) =>
      match t.getLast? with
      | none => .error .indexError
      | some tl =>
        if tm > tl then accumLoop pgdDict distDict tOrigin tmw rest (mw, count)
        else
          match dictLookup code distDict with
          | none => .error .keyError
          | some r =>
            let k := argminAbs t tm
            let aux := (pgd.drop k).map (fun p => mw_melgar (100 * p) r)
            let i1 := argminAbs tmw (t.getD k 0 - tOrigin)
            if i1 + aux.length ≤ tmw.length then
              accumLoop pgdDict distDict tOrigin tmw rest
                (addSlice mw i1 aux, incSlice count i1 aux.length)
            else .error .valueError

/-- The closing statements of `mw_timeseries_from_pgd` (lines 397-399):
`count[count == 0] = 1`, `mw /= count`, `mw[mw < 1e-5] = np.nan`. -/
def finalize (mw : List ℝ) (count : List ℕ) : List PVal :=
  (mw.zip count).map (fun p =>
    let c : ℕ := if p.2 = 0 then 1 else p.2
    let a : ℝ := p.1 / (c : ℝ)
    if a < 1e-5 then PVal.nan else PVal.num a)

/-- `NetworkTimeSeries.mw_timeseries_from_pgd(vel_mask, sta_list, window,
max_distance)`.  `tOrigin`, `sRate`, `codes` and `distDict` are the fields
`self._t_origin`, `self.s_rate`, `self._codes` and `self._distance_dict`;
`bufferPgd` is the external per-station buffer query
`GnssTimeSeries.pgd_timeseries`, whose result is `none` when the station has
no PGD data.  `pgd_dict` is built over `sta_list` (default: all registered
codes); afterwards the selection, time-span, grid, accumulation and
finalization stages run.  When no station survives selection the function
returns the explicit pair `(None, None)`, embedded as `.ok none`. -/
def mwTimeseriesFromPgd (tOrigin sRate : ℝ) (codes : List String)
    (distDict : List (String × ℝ)) (bufferPgd : String → Option (List ℝ × List ℝ))
    (velMask : ℝ) (staList : Option (List String)) (maxDistance : Option ℝ) :
    Except PyError (Option (List PVal × List ℝ)) :=
  let staList' := staList.getD codes
  let pgdDict := staList'.map (fun c => (c, bufferPgd c))
  let maxd := maxDistance.getD defaultMaxDistance
  match selectStations tOrigin velMask maxd pgdDict distDict with
  | .error e => .error e
  | .ok kept =>
    if kept.isEmpty then .ok none
    else
      match headsLasts pgdDict kept with
      | .error e => .error e
      | .ok hl =>
        let tmin := listMin (hl.map Prod.fst)
        let tmax := listMax (hl.map Prod.snd)
        let tstep := 1 / sRate
        let tmw := arange (tmin - tOrigin) (tmax - tOrigin + 0.5 * tstep) tstep
        match accumLoop pgdDict distDict tOrigin tmw kept
            (List.replicate tmw.length 0, List.replicate tmw.length 0) with
        | .error e => .error e
        | .ok mc => .ok (some (finalize mc.1 mc.2, tmw))

/-! ## Association-list lemmas -/

theorem dictLookup_eq_none_iff {α : Type} (k : String) (d : List (String × α)) :
    dictLookup k d = none ↔ k ∉ d.map Prod.fst := by
  induction d with
  | nil => simp [dictLookup]
  | cons p rest ih =>
    by_cases h : p.1 = k
    · simp [dictLookup, h]
    · simp [dictLookup, h, ih, Ne.symm h]

theorem dictLookup_dictInsert_self {α : Type} (k : String) (v : α) (d : List (String × α)) :
    dictLookup k (dictInsert k v d) = some v := by
  induction d with
  | nil => simp [dictInsert, dictLookup]
  | cons p rest ih =>
    by_cases h : p.1 = k
    · simp [dictInsert, dictLookup, h]
    · simp [dictInsert, dictLookup, h, ih]

theorem dictLookup_dictInsert_ne {α : Type} (k k' : String) (v : α) (d : List (String × α))
    (h : k' ≠ k) : dictLookup k' (dictInsert k v d) = dictLookup k' d := by
  induction d with
  | nil => simp [dictInsert, dictLookup, Ne.symm h]
  | cons p rest ih =>
    by_cases hp : p.1 = k
    · simp only [dictInsert, if_pos hp, dictLookup]
      rw [if_neg (Ne.symm h), if_neg (show ¬p.1 = k' by rw [hp]; exact Ne.symm h)]
    · simp only [dictInsert, if_neg hp, dictLookup]
      by_cases hp' : p.1 = k'
      · rw [if_pos hp', if_pos hp']
      · rw [if_neg hp', if_neg hp', ih]

theorem dictLookup_dictErase_ne {α : Type} (k k' : String) (d : List (String × α))
    (h : k' ≠ k) : dictLookup k' (dictErase k d) = dictLookup k' d := by
  induction d with
  | nil => simp [dictErase]
  | cons p rest ih =>
    by_cases hp : p.1 = k
    · simp only [dictErase, if_pos hp, dictLookup]
      rw [if_neg (show ¬p.1 = k' by rw [hp]; exact Ne.symm h)]
    · simp only [dictErase, if_neg hp, dictLookup]
      by_cases hp' : p.1 = k'
      · rw [if_pos hp', if_pos hp']
      · rw [if_neg hp', if_neg hp', ih]

theorem map_fst_dictInsert {α : Type} (k : String) (v : α) (d : List (String × α)) :
    (dictInsert k v d).map Prod.fst = d.map Prod.fst ∨
    (dictInsert k v d).map Prod.fst = d.map Prod.fst ++ [k] := by
  induction d with
  | nil => right; simp [dictInsert]
  | cons p rest ih =>
    by_cases hp : p.1 = k
    · left; simp [dictInsert, hp]
    · rcases ih with h | h
      · left; simp [dictInsert, hp, h]
      · right; simp [dictInsert, hp, h]

theorem nodupKeys_dictInsert {α : Type} (k : String) (v : α) (d : List (String × α))
    (h : (d.map Prod.fst).Nodup) : ((dictInsert k v d).map Prod.fst).Nodup := by
  induction d with
  | nil => simp [dictInsert]
  | cons p rest ih =>
    simp only [List.map_cons, List.nodup_cons] at h
    simp only [dictInsert]
    by_cases hp : p.1 = k
    · rw [if_pos hp]
      simp only [List.map_cons, List.nodup_cons]
      exact ⟨hp ▸ h.1, h.2⟩
    · rw [if_neg hp]
      simp only [List.map_cons, List.nodup_cons]
      refine ⟨?_, ih h.2⟩
      rcases map_fst_dictInsert k v rest with heq | heq <;> rw [heq]
      · exact h.1
      · simp only [List.mem_append, List.mem_singleton]
        rintro (hmem | rfl)
        · exact h.1 hmem
        · exact hp rfl

theorem sublist_dictErase {α : Type} (k : String) (d : List (String × α)) :
    (dictErase k d).Sublist d := by
  induction d with
  | nil => simp [dictErase]
  | cons p rest ih =>
    by_cases hp : p.1 = k
    · simp only [dictErase, if_pos hp]
      exact (List.sublist_cons_self p rest)
    · simp only [dictErase, if_neg hp]
      exact ih.cons₂ p

theorem nodupKeys_dictErase {α : Type} (k : String) (d : List (String × α))
    (h : (d.map Prod.fst).Nodup) : ((dictErase k d).map Prod.fst).Nodup :=
  ((sublist_dictErase k d).map Prod.fst).nodup h

theorem dictLookup_dictErase_self {α : Type} (k : String) (d : List (String × α))
    (h : (d.map Prod.fst).Nodup) : dictLookup k (dictErase k d) = none := by
  induction d with
  | nil => simp [dictErase, dictLookup]
  | cons p rest ih =>
    simp only [List.map_cons, List.nodup_cons] at h
    by_cases hp : p.1 = k
    · rw [dictLookup_eq_none_iff]
      simp only [dictErase, if_pos hp]
      rw [← hp]; exact h.1
    · simp only [dictErase, if_neg hp, dictLookup, if_neg hp]
      exact ih h.2

theorem dictLookup_foldl_congr {β γ : Type}
    (u : List (String × γ) → String × β → List (String × γ))
    (hu : ∀ d p k, k ≠ p.1 → dictLookup k (u d p) = dictLookup k d)
    (l : List (String × β)) (d : List (String × γ)) (k : String)
    (hk : ∀ p ∈ l, p.1 ≠ k) :
    dictLookup k (l.foldl u d) = dictLookup k d := by
  induction l generalizing d with
  | nil => rfl
  | cons p rest ih =>
    rw [List.foldl_cons, ih (u d p) (fun q hq => hk q (List.mem_cons_of_mem _ hq)),
      hu d p k (Ne.symm (hk p (List.mem_cons_self _ _)))]

theorem dictLookup_updateDistance_ne (proj : ℝ × ℝ → ℝ × ℝ → ℝ × ℝ) (c : ℝ × ℝ × ℝ)
    (maxd : ℝ) (d : List (String × ℝ)) (p : String × Option (ℝ × ℝ)) (k : String)
    (h : k ≠ p.1) :
    dictLookup k (updateDistance proj c maxd d p) = dictLookup k d := by
  cases hp : p.2 with
  | none => simp [updateDistance, hp]
  | some rc =>
    simp only [updateDistance, hp]
    split_ifs with hr
    · exact dictLookup_dictInsert_ne p.1 k _ d h
    · exact dictLookup_dictErase_ne p.1 k d h

/-! ## Claim theorems -/

/-- C5: for positive `pgd` (cm) and `r_hypo` (km) with nonzero denominators,
`mw_melgar` computes `(log10(pgd) + 4.434)/(1.047 - 0.138*log10(r_hypo))`
and `mw_crowel` computes `(ln(pgd) + 5.013)/(1.219 - 0.178*ln(r_hypo))`,
both as pure functions of their two arguments. -/
theorem mw_formulas_match_spec (pgd r_hypo : ℝ) (hp : 0 < pgd) (hr : 0 < r_hypo)
    (hdm : 1.047 - 0.138 * Real.logb 10 r_hypo ≠ 0)
    (hdc : 1.219 - 0.178 * Real.log r_hypo ≠ 0) :
    mw_melgar pgd r_hypo =
      (Real.logb 10 pgd + 4.434) / (1.047 - 0.138 * Real.logb 10 r_hypo) ∧
    mw_crowel pgd r_hypo =
      (Real.log pgd + 5.013) / (1.219 - 0.178 * Real.log r_hypo) :=
  ⟨rfl, rfl⟩

/-- Witness for C5 at `pgd = 1`, `r_hypo = 1`. -/
theorem mw_formulas_match_spec_witness :
    (0:ℝ) < 1 ∧ (1.047 - 0.138 * Real.logb 10 1 ≠ 0) ∧
      (1.219 - 0.178 * Real.log 1 ≠ 0) ∧
    mw_melgar 1 1 = (Real.logb 10 1 + 4.434) / (1.047 - 0.138 * Real.logb 10 1) ∧
    mw_crowel 1 1 = (Real.log 1 + 5.013) / (1.219 - 0.178 * Real.log 1) := by
  have h1 : (0:ℝ) < 1 := by norm_num
  have hm : (1.047:ℝ) - 0.138 * Real.logb 10 1 ≠ 0 := by
    rw [Real.logb_one]; norm_num
  have hc : (1.219:ℝ) - 0.178 * Real.log 1 ≠ 0 := by
    rw [Real.log_one]; norm_num
  exact ⟨h1, hm, hc, (mw_formulas_match_spec 1 1 h1 h1 hm hc).1,
    (mw_formulas_match_spec 1 1 h1 h1 hm hc).2⟩

/-- C3: when the stored hypocenter has no NaN component and the new
coordinates satisfy `max(|Δlon|, |Δlat|, 0.01*|Δdepth|) < 1e-5`, the call to
`set_hypocenter_coords` is a complete no-op: the state — hypocenter, distance
map, stored max distance, projector center, and the ghost projector-call
counter (so the projector is never invoked) — is returned unchanged. -/
theorem set_hypocenter_tolerance_noop (proj : ℝ × ℝ → ℝ × ℝ → ℝ × ℝ) (s : Net)
    (h0 c : ℝ × ℝ × ℝ) (md : Option ℝ) (hh : s.hypocenter = some h0)
    (htol : max (|c.1 - h0.1|) (max (|c.2.1 - h0.2.1|) (0.01 * |c.2.2 - h0.2.2|)) < 1e-5) :
    setHypocenterCoords proj s (some c) md = s := by
  simp [setHypocenterCoords, hypoTolNoOp, hh, htol]

/-- Witness for C3: a state with hypocenter `(10, 20, 30)` updated to
`(10 + 1e-6, 20, 30)` is left untouched. -/
theorem set_hypocenter_tolerance_noop_witness :
    ({ initNet with hypocenter := some (10, 20, 30) } : Net).hypocenter = some (10, 20, 30) ∧
    max (|((10:ℝ) + 1e-6) - 10|)
      (max (|(20:ℝ) - 20|) (0.01 * |(30:ℝ) - 30|)) < 1e-5 ∧
    setHypocenterCoords (fun _ q => q) { initNet with hypocenter := some (10, 20, 30) }
      (some (10 + 1e-6, 20, 30)) none = { initNet with hypocenter := some (10, 20, 30) } := by
  have htol : max (|((10:ℝ) + 1e-6) - 10|)
      (max (|(20:ℝ) - 20|) (0.01 * |(30:ℝ) - 30|)) < 1e-5 := by
    have e1 : ((10:ℝ) + 1e-6) - 10 = 1e-6 := by norm_num
    have e2 : |(20:ℝ) - 20| = 0 := by norm_num
    have e3 : (0.01:ℝ) * |(30:ℝ) - 30| = 0 := by norm_num
    rw [e1, e2, e3, abs_of_nonneg (by norm_num : (0:ℝ) ≤ 1e-6)]
    norm_num
  exact ⟨rfl, htol,
    set_hypocenter_tolerance_noop _ _ (10, 20, 30) _ none rfl htol⟩

theorem selectStations_ok_nil (tOrigin velMask maxd : ℝ)
    (pgdDict : List (String × Option (List ℝ × List ℝ))) (dd : List (String × ℝ))
    (h : ∀ p ∈ dd, p.2 > maxd ∨ dictLookup p.1 pgdDict = some none) :
    selectStations tOrigin velMask maxd pgdDict dd = .ok [] := by
  induction dd with
  | nil => rfl
  | cons p rest ih =>
    obtain ⟨code, r⟩ := p
    have hrest := ih (fun q hq => h q (List.mem_cons_of_mem _ hq))
    rcases h (code, r) (List.mem_cons_self _ _) with hgt | hlk
    · simp only [selectStations]
      rw [if_pos hgt, hrest]
    · by_cases hgt : r > maxd
      · simp only [selectStations]
        rw [if_pos hgt, hrest]
      · simp only [selectStations]
        rw [if_neg hgt, hlk, hrest]

/-- C7: when every station in the distance map is either beyond the effective
max distance or has a null (no-data) PGD series, `mw_timeseries_from_pgd`
returns the explicit pair `(None, None)` — embedded as `.ok none`: no
exception and no empty series — and in particular it does so when the
distance map is empty. -/
theorem mw_timeseries_no_contributors_null (tOrigin sRate velMask : ℝ)
    (codes : List String) (distDict : List (String × ℝ))
    (bufferPgd : String → Option (List ℝ × List ℝ))
    (staList : Option (List String)) (maxDistance : Option ℝ)
    (h : ∀ p ∈ distDict, p.2 > maxDistance.getD defaultMaxDistance ∨
      dictLookup p.1 ((staList.getD codes).map (fun c => (c, bufferPgd c))) = some none) :
    mwTimeseriesFromPgd tOrigin sRate codes distDict bufferPgd velMask staList maxDistance =
      .ok none := by
  simp only [mwTimeseriesFromPgd]
  rw [selectStations_ok_nil _ _ _ _ _ h]
  rfl

/-- Witness for C7: an empty distance map yields `.ok none`. -/
theorem mw_timeseries_no_contributors_null_witness :
    (∀ p ∈ ([] : List (String × ℝ)), p.2 > (Option.getD none defaultMaxDistance) ∨
      dictLookup p.1 (((Option.getD none ["AAAA"]).map
        (fun c => (c, (fun _ => none : String → Option (List ℝ × List ℝ)) c)))) = some none) ∧
    mwTimeseriesFromPgd 0 1 ["AAAA"] [] (fun _ => none) 3 none none = .ok none := by
  refine ⟨by simp, ?_⟩
  exact mw_timeseries_no_contributors_null 0 1 3 ["AAAA"] [] (fun _ => none) none none
    (by simp)

/-- C8: `add_station` with absent reference coordinates does not raise and
leaves the registry unchanged (every field of the state is as before); the
code cannot be resolved afterwards, and after any later hypocenter update the
station still does not appear in the distance map. -/
theorem add_station_without_coords_noop (s : Net) (code name : String)
    (hc : code ∉ s.codes) (hd : code ∉ s.distance_dict.map Prod.fst)
    (hi : dictLookup code s.code2index = none) :
    addStation s code none name = s ∧
    dictLookup code (addStation s code none name).code2index = none ∧
    ∀ (proj : ℝ × ℝ → ℝ × ℝ → ℝ × ℝ) (coords : Option (ℝ × ℝ × ℝ)) (md : Option ℝ),
      code ∉ (setHypocenterCoords proj (addStation s code none name) coords
        md).distance_dict.map Prod.fst := by
  refine ⟨rfl, hi, ?_⟩
  intro proj coords md
  show code ∉ (setHypocenterCoords proj s coords md).distance_dict.map Prod.fst
  cases coords with
  | none => exact hd
  | some c =>
    simp only [setHypocenterCoords]
    split_ifs with hno
    · exact hd
    · dsimp only
      rw [← dictLookup_eq_none_iff]
      rw [dictLookup_foldl_congr _
        (fun d p k hk => dictLookup_updateDistance_ne proj c _ d p k hk)
        _ _ _ (fun p hp he => hc (by rw [← he]; exact (List.of_mem_zip hp).1))]
      exact (dictLookup_eq_none_iff _ _).mpr hd

/-- Witness for C8 on the empty registry with code `"AAAA"`. -/
theorem add_station_without_coords_noop_witness :
    ("AAAA" ∉ initNet.codes) ∧ ("AAAA" ∉ initNet.distance_dict.map Prod.fst) ∧
    dictLookup "AAAA" initNet.code2index = none ∧
    (addStation initNet "AAAA" none "name" = initNet ∧
     dictLookup "AAAA" (addStation initNet "AAAA" none "name").code2index = none ∧
     ∀ (proj : ℝ × ℝ → ℝ × ℝ → ℝ × ℝ) (coords : Option (ℝ × ℝ × ℝ)) (md : Option ℝ),
       "AAAA" ∉ (setHypocenterCoords proj (addStation initNet "AAAA" none "name") coords
         md).distance_dict.map Prod.fst) := by
  refine ⟨by simp [initNet], by simp [initNet], rfl, ?_⟩
  exact add_station_without_coords_noop initNet "AAAA" "name"
    (by simp [initNet]) (by simp [initNet]) rfl

theorem nodupKeys_updateDistance (proj : ℝ × ℝ → ℝ × ℝ → ℝ × ℝ) (c : ℝ × ℝ × ℝ)
    (maxd : ℝ) (d : List (String × ℝ)) (p : String × Option (ℝ × ℝ))
    (h : (d.map Prod.fst).Nodup) :
    ((updateDistance proj c maxd d p).map Prod.fst).Nodup := by
  cases hp : p.2 with
  | none => simpa [updateDistance, hp] using h
  | some rc =>
    simp only [updateDistance, hp]
    split_ifs with hr
    · exact nodupKeys_dictInsert _ _ _ h
    · exact nodupKeys_dictErase _ _ h

theorem nodupKeys_foldl_updateDistance (proj : ℝ × ℝ → ℝ × ℝ → ℝ × ℝ) (c : ℝ × ℝ × ℝ)
    (maxd : ℝ) (l : List (String × Option (ℝ × ℝ))) (d : List (String × ℝ))
    (h : (d.map Prod.fst).Nodup) :
    ((l.foldl (updateDistance proj c maxd) d).map Prod.fst).Nodup := by
  induction l generalizing d with
  | nil => exact h
  | cons p rest ih =>
    rw [List.foldl_cons]
    exact ih _ (nodupKeys_updateDistance proj c maxd d p h)

theorem dictLookup_updateDistance_self (proj : ℝ × ℝ → ℝ × ℝ → ℝ × ℝ) (c : ℝ × ℝ × ℝ)
    (maxd : ℝ) (d : List (String × ℝ)) (code : String) (rc : ℝ × ℝ)
    (hn : (d.map Prod.fst).Nodup) :
    dictLookup code (updateDistance proj c maxd d (code, some rc)) =
      (if Real.sqrt (c.2.2 * c.2.2 + ((proj (c.1, c.2.1) rc).1 * (proj (c.1, c.2.1) rc).1 +
          (proj (c.1, c.2.1) rc).2 * (proj (c.1, c.2.1) rc).2) * 1e-6) < maxd
       then some (Real.sqrt (c.2.2 * c.2.2 + ((proj (c.1, c.2.1) rc).1 * (proj (c.1, c.2.1) rc).1 +
          (proj (c.1, c.2.1) rc).2 * (proj (c.1, c.2.1) rc).2) * 1e-6))
       else none) := by
  simp only [updateDistance]
  split_ifs with hr
  · exact dictLookup_dictInsert_self code _ d
  · exact dictLookup_dictErase_self code d hn

/-- C2: a call to `set_hypocenter_coords` that is not a tolerance no-op stores
the new hypocenter and max distance (default 800), re-centers the projector on
the new epicenter, and for every registered station with reference
coordinates: with `(x, y)` its projection in the re-centered frame and
`r = sqrt(depth² + (x² + y²)*1e-6)`, the station's code is a key of the
distance map with value exactly `r` precisely when `r < max_distance` — in
particular any prior entry of a station whose new distance is at least
`max_distance` is removed, so the map holds no stale entries. -/
theorem set_hypocenter_distance_map_spec (proj : ℝ × ℝ → ℝ × ℝ → ℝ × ℝ) (s : Net)
    (c : ℝ × ℝ × ℝ) (md : Option ℝ) (code : String) (rc : ℝ × ℝ)
    (hlen : s.codes.length = s.ref_coords.length)
    (hnodupC : s.codes.Nodup)
    (hnodupD : (s.distance_dict.map Prod.fst).Nodup)
    (hno : hypoTolNoOp s.hypocenter c = false)
    (hmem : (code, some rc) ∈ s.codes.zip s.ref_coords) :
    (setHypocenterCoords proj s (some c) md).hypocenter = some c ∧
    (setHypocenterCoords proj s (some c) md).max_distance =
      some (md.getD defaultMaxDistance) ∧
    (setHypocenterCoords proj s (some c) md).projCenter = (c.1, c.2.1) ∧
    dictLookup code (setHypocenterCoords proj s (some c) md).distance_dict =
      (if Real.sqrt (c.2.2 * c.2.2 + ((proj (c.1, c.2.1) rc).1 * (proj (c.1, c.2.1) rc).1 +
          (proj (c.1, c.2.1) rc).2 * (proj (c.1, c.2.1) rc).2) * 1e-6) < md.getD defaultMaxDistance
       then some (Real.sqrt (c.2.2 * c.2.2 + ((proj (c.1, c.2.1) rc).1 * (proj (c.1, c.2.1) rc).1 +
          (proj (c.1, c.2.1) rc).2 * (proj (c.1, c.2.1) rc).2) * 1e-6))
       else none) := by
  simp only [setHypocenterCoords, hno, Bool.false_eq_true, if_false]
  refine ⟨trivial, trivial, trivial, ?_⟩
  obtain ⟨l1, l2, hsplit⟩ := List.append_of_mem hmem
  have hfst : (s.codes.zip s.ref_coords).map Prod.fst = s.codes :=
    List.map_fst_zip _ _ (le_of_eq hlen)
  have hnodupZ : ((s.codes.zip s.ref_coords).map Prod.fst).Nodup := by
    rw [hfst]; exact hnodupC
  rw [hsplit] at hnodupZ
  simp only [List.map_append, List.map_cons, List.nodup_append, List.nodup_cons] at hnodupZ
  have hnotin2 : ∀ p ∈ l2, p.1 ≠ code := by
    intro p hp he
    exact hnodupZ.2.1.1 (he ▸ List.mem_map_of_mem Prod.fst hp)
  rw [hsplit, List.foldl_append, List.foldl_cons]
  rw [dictLookup_foldl_congr _
    (fun d p k hk => dictLookup_updateDistance_ne proj c _ d p k hk) l2 _ code
    (fun p hp he => hnotin2 p hp he)]
  exact dictLookup_updateDistance_self proj c _ _ code rc
    (nodupKeys_foldl_updateDistance proj c _ l1 s.distance_dict hnodupD)

/-- Witness for C2: one station `"AAAA"` whose projection is `(0, 1000)`
meters from a hypocenter at depth 0 — so `r = sqrt(1) = 1` km. -/
theorem set_hypocenter_distance_map_spec_witness :
    (({ initNet with codes := ["AAAA"], ref_coords := [some (0, 0)] } : Net).codes.length =
      ({ initNet with codes := ["AAAA"], ref_coords := [some (0, 0)] } : Net).ref_coords.length) ∧
    (({ initNet with codes := ["AAAA"], ref_coords := [some (0, 0)] } : Net).codes.Nodup) ∧
    ((({ initNet with codes := ["AAAA"], ref_coords := [some (0, 0)] } : Net).distance_dict.map
      Prod.fst).Nodup) ∧
    hypoTolNoOp ({ initNet with codes := ["AAAA"], ref_coords := [some (0, 0)] } : Net).hypocenter
      (0, 0, 0) = false ∧
    (("AAAA", some ((0:ℝ), (0:ℝ))) ∈
      ({ initNet with codes := ["AAAA"], ref_coords := [some (0, 0)] } : Net).codes.zip
        ({ initNet with codes := ["AAAA"], ref_coords := [some (0, 0)] } : Net).ref_coords) ∧
    dictLookup "AAAA" (setHypocenterCoords (fun _ _ => (0, 1000))
      { initNet with codes := ["AAAA"], ref_coords := [some (0, 0)] }
      (some (0, 0, 0)) none).distance_dict =
      (if Real.sqrt ((0:ℝ) * 0 + (((0:ℝ)) * 0 + (1000:ℝ) * 1000) * 1e-6) <
          (Option.getD none defaultMaxDistance)
       then some (Real.sqrt ((0:ℝ) * 0 + (((0:ℝ)) * 0 + (1000:ℝ) * 1000) * 1e-6))
       else none) := by
  refine ⟨rfl, by simp, by simp [initNet], rfl, by simp, ?_⟩
  exact (set_hypocenter_distance_map_spec (fun _ _ => (0, 1000))
    { initNet with codes := ["AAAA"], ref_coords := [some (0, 0)] }
    (0, 0, 0) none "AAAA" (0, 0) rfl (by simp) (by simp [initNet]) rfl (by simp)).2.2.2

/-- C4 counterexample: after registering a single station at latitude 50 the
range is `(50, -100)` — the maximum slot is left at its `-100` sentinel by the
`if`/`elif` update — so `lat_range()` is not `(min, max) = (50, 50)`. -/
theorem lat_range_single_station_not_minmax :
    (addStation initNet "AAAA" (some (10, 50)) "").lat_range ≠ ((50:ℝ), (50:ℝ)) := by
  have h : (addStation initNet "AAAA" (some (10, 50)) "").lat_range = ((50:ℝ), (-100:ℝ)) := by
    simp only [addStation, initNet]
    norm_num
  rw [h]
  intro hcontra
  have h2 := congrArg Prod.snd hcontra
  norm_num at h2

theorem foldl_min_le_self (a : ℝ) (xs : List ℝ) : xs.foldl min a ≤ a := by
  induction xs generalizing a with
  | nil => exact le_refl a
  | cons x xs ih => exact le_trans (ih (min a x)) (min_le_left a x)

theorem foldl_min_le_mem (a : ℝ) (xs : List ℝ) (x : ℝ) (hx : x ∈ xs) :
    xs.foldl min a ≤ x := by
  induction xs generalizing a with
  | nil => cases hx
  | cons y ys ih =>
    rcases List.mem_cons.mp hx with rfl | hx'
    · exact le_trans (foldl_min_le_self (min a x) ys) (min_le_right a x)
    · exact ih (min a y) hx'

theorem foldl_min_eq_or_mem (a : ℝ) (xs : List ℝ) :
    xs.foldl min a = a ∨ xs.foldl min a ∈ xs := by
  induction xs generalizing a with
  | nil => exact Or.inl rfl
  | cons y ys ih =>
    rcases ih (min a y) with h | h
    · rw [List.foldl_cons, h]
      rcases min_choice a y with h' | h'
      · exact Or.inl h'
      · exact Or.inr (by rw [h']; exact List.mem_cons_self _ _)
    · exact Or.inr (List.mem_cons_of_mem _ h)

theorem addStation_min_components (s : Net) (code : String) (rc : ℝ × ℝ) (name : String) :
    (addStation s code (some rc) name).lat_range.1 = min s.lat_range.1 rc.2 ∧
    (addStation s code (some rc) name).lon_range.1 = min s.lon_range.1 rc.1 := by
  constructor
  · show (if rc.2 < s.lat_range.1 then (rc.2, s.lat_range.2)
      else if rc.2 > s.lat_range.2 then (s.lat_range.1, rc.2) else s.lat_range).1 =
        min s.lat_range.1 rc.2
    split_ifs with h1 h2
    · exact (min_eq_right (le_of_lt h1)).symm
    · exact (min_eq_left (le_of_not_lt h1)).symm
    · exact (min_eq_left (le_of_not_lt h1)).symm
  · show (if rc.1 < s.lon_range.1 then (rc.1, s.lon_range.2)
      else if rc.1 > s.lon_range.2 then (s.lon_range.1, rc.1) else s.lon_range).1 =
        min s.lon_range.1 rc.1
    split_ifs with h1 h2
    · exact (min_eq_right (le_of_lt h1)).symm
    · exact (min_eq_left (le_of_not_lt h1)).symm
    · exact (min_eq_left (le_of_not_lt h1)).symm

theorem registerAll_min_components (s : Net) (l : List (String × ℝ × ℝ)) :
    (registerAll s l).lat_range.1 = (l.map (fun p => p.2.2)).foldl min s.lat_range.1 ∧
    (registerAll s l).lon_range.1 = (l.map (fun p => p.2.1)).foldl min s.lon_range.1 := by
  induction l generalizing s with
  | nil => exact ⟨rfl, rfl⟩
  | cons p rest ih =>
    have hstep := addStation_min_components s p.1 p.2 ""
    have hrest := ih (addStation s p.1 (some p.2) "")
    constructor
    · show (registerAll (addStation s p.1 (some p.2) "") rest).lat_range.1 = _
      rw [hrest.1, hstep.1, List.map_cons, List.foldl_cons]
    · show (registerAll (addStation s p.1 (some p.2) "") rest).lon_range.1 = _
      rw [hrest.2, hstep.2, List.map_cons, List.foldl_cons]

/-- C4 amended: after registering any nonempty batch of stations with
physically plausible coordinates (latitude below the 100 sentinel, longitude
below the 370 sentinel), the FIRST components of `lat_range()` and
`lon_range()` are exactly the minimum latitude and minimum longitude over all
registered stations; the second components are *not* in general the maxima —
with a single station the maximum slot keeps its sentinel, as the
counterexample shows. -/
theorem range_min_components_spec (l : List (String × ℝ × ℝ)) (hne : l ≠ [])
    (hlat : ∀ p ∈ l, p.2.2 < 100) (hlon : ∀ p ∈ l, p.2.1 < 370) :
    ((∀ p ∈ l, (registerAll initNet l).lat_range.1 ≤ p.2.2) ∧
      (∃ p ∈ l, (registerAll initNet l).lat_range.1 = p.2.2)) ∧
    ((∀ p ∈ l, (registerAll initNet l).lon_range.1 ≤ p.2.1) ∧
      (∃ p ∈ l, (registerAll initNet l).lon_range.1 = p.2.1)) := by
  obtain ⟨hminlat, hminlon⟩ := registerAll_min_components initNet l
  obtain ⟨p0, hp0⟩ := List.exists_mem_of_ne_nil l hne
  constructor
  · constructor
    · intro p hp
      rw [hminlat]
      exact foldl_min_le_mem _ _ _ (List.mem_map_of_mem _ hp)
    · rcases foldl_min_eq_or_mem initNet.lat_range.1 (l.map (fun p => p.2.2)) with h | h
      · exfalso
        have hle : (l.map (fun p => p.2.2)).foldl min initNet.lat_range.1 ≤ p0.2.2 :=
          foldl_min_le_mem _ _ _ (List.mem_map_of_mem _ hp0)
        rw [h] at hle
        have : (100:ℝ) < 100 := lt_of_le_of_lt hle (hlat p0 hp0)
        exact lt_irrefl _ this
      · obtain ⟨p, hp, hpe⟩ := List.mem_map.mp h
        exact ⟨p, hp, by rw [hminlat, ← hpe]⟩
  · constructor
    · intro p hp
      rw [hminlon]
      exact foldl_min_le_mem _ _ _ (List.mem_map_of_mem _ hp)
    · rcases foldl_min_eq_or_mem initNet.lon_range.1 (l.map (fun p => p.2.1)) with h | h
      · exfalso
        have hle : (l.map (fun p => p.2.1)).foldl min initNet.lon_range.1 ≤ p0.2.1 :=
          foldl_min_le_mem _ _ _ (List.mem_map_of_mem _ hp0)
        rw [h] at hle
        have : (370:ℝ) < 370 := lt_of_le_of_lt hle (hlon p0 hp0)
        exact lt_irrefl _ this
      · obtain ⟨p, hp, hpe⟩ := List.mem_map.mp h
        exact ⟨p, hp, by rw [hminlon, ← hpe]⟩

/-- Witness for the amended C4 at a single station `("AAAA", (10, 50))`. -/
theorem range_min_components_spec_witness :
    ([("AAAA", ((10:ℝ), (50:ℝ)))] ≠ []) ∧
    (∀ p ∈ [("AAAA", ((10:ℝ), (50:ℝ)))], p.2.2 < 100) ∧
    (∀ p ∈ [("AAAA", ((10:ℝ), (50:ℝ)))], p.2.1 < 370) ∧
    (((∀ p ∈ [("AAAA", ((10:ℝ), (50:ℝ)))],
        (registerAll initNet [("AAAA", ((10:ℝ), (50:ℝ)))]).lat_range.1 ≤ p.2.2) ∧
      (∃ p ∈ [("AAAA", ((10:ℝ), (50:ℝ)))],
        (registerAll initNet [("AAAA", ((10:ℝ), (50:ℝ)))]).lat_range.1 = p.2.2)) ∧
     ((∀ p ∈ [("AAAA", ((10:ℝ), (50:ℝ)))],
        (registerAll initNet [("AAAA", ((10:ℝ), (50:ℝ)))]).lon_range.1 ≤ p.2.1) ∧
      (∃ p ∈ [("AAAA", ((10:ℝ), (50:ℝ)))],
        (registerAll initNet [("AAAA", ((10:ℝ), (50:ℝ)))]).lon_range.1 = p.2.1))) := by
  refine ⟨by simp, ?_, ?_, ?_⟩
  · intro p hp
    rw [List.mem_singleton.mp hp]
    norm_num
  · intro p hp
    rw [List.mem_singleton.mp hp]
    norm_num
  · exact range_min_components_spec [("AAAA", ((10:ℝ), (50:ℝ)))] (by simp)
      (fun p hp => by rw [List.mem_singleton.mp hp]; norm_num)
      (fun p hp => by rw [List.mem_singleton.mp hp]; norm_num)

theorem dictLookup_mwStep_ne (pgdDict : List (String × PVal))
    (acc : List (String × (PVal × ℝ))) (p : String × ℝ) (k : String) (h : k ≠ p.1) :
    dictLookup k (match dictLookup p.1 pgdDict with
      | none => acc
      | some pgd =>
        if pgd.isfinite then dictInsert p.1 (mwMelgarF (floatScale 100 pgd) p.2, p.2) acc
        else acc) = dictLookup k acc := by
  cases dictLookup p.1 pgdDict with
  | none => rfl
  | some pgd =>
    by_cases hf : pgd.isfinite
    · simp only [if_pos hf]
      exact dictLookup_dictInsert_ne p.1 k _ acc h
    · simp only [if_neg hf]

/-- C1 counterexample: with station `"AAAA"` at PGD `-1` (meters) and station
`"BBBB"` at PGD `0.05` m = 5 cm, both at 50 km, the result of `mw_from_pgd`
does NOT contain only the second station: `math.isfinite(-1)` is true, so
`"AAAA"` passes the filter and is stored with `np.log10(-100) = nan`
propagated into a NaN Mw entry. -/
theorem mw_from_pgd_includes_negative_pgd :
    dictLookup "AAAA" (mw_from_pgd [("AAAA", 50), ("BBBB", 50)]
      [("AAAA", PVal.num (-1)), ("BBBB", PVal.num 0.05)]) = some (PVal.nan, 50) := by
  have hscale : floatScale 100 (PVal.num (-1)) = PVal.num (-100) := by
    simp only [floatScale]
    norm_num
  have hlog : floatLog10 (PVal.num (-100)) = PVal.nan := by
    simp only [floatLog10]
    rw [if_neg (by norm_num : ¬(0:ℝ) < -100), if_neg (by norm_num : ¬(-100:ℝ) = 0)]
  have hval : mwMelgarF (floatScale 100 (PVal.num (-1))) 50 = PVal.nan := by
    rw [mwMelgarF, hscale, hlog]
    rfl
  simp only [mw_from_pgd, List.foldl_cons, List.foldl_nil]
  simp only [dictLookup, dictInsert, PVal.isfinite]
  norm_num [hval]

/-- C1 amended: `mw_from_pgd` excludes exactly the stations whose PGD is
non-finite in the `math.isfinite` sense (NaN or ±inf); every station of the
distance map with a finite PGD — including zero and negative values — is
included and maps to `(mw_melgar(100*pgd, r), r)` under float semantics
(which is NaN or -inf when the PGD is not positive); a station missing from
the PGD mapping is skipped via the swallowed `KeyError`. -/
theorem mw_from_pgd_lookup_spec (distDict : List (String × ℝ))
    (pgdDict : List (String × PVal)) (code : String) (r : ℝ)
    (hnodup : (distDict.map Prod.fst).Nodup)
    (hmem : (code, r) ∈ distDict) :
    dictLookup code (mw_from_pgd distDict pgdDict) =
      (match dictLookup code pgdDict with
       | none => none
       | some pgd =>
         if pgd.isfinite then some (mwMelgarF (floatScale 100 pgd) r, r) else none) := by
  obtain ⟨l1, l2, hsplit⟩ := List.append_of_mem hmem
  rw [hsplit] at hnodup
  simp only [List.map_append, List.map_cons, List.nodup_append, List.nodup_cons] at hnodup
  simp only [mw_from_pgd]
  rw [hsplit, List.foldl_append, List.foldl_cons]
  rw [dictLookup_foldl_congr _ (fun d p k hk => dictLookup_mwStep_ne pgdDict d p k hk) l2 _
    code (fun p hp he => hnodup.2.1.1 (he ▸ List.mem_map_of_mem Prod.fst hp))]
  have hmid : dictLookup code (List.foldl (fun acc p =>
      match dictLookup p.1 pgdDict with
      | none => acc
      | some pgd =>
        if pgd.isfinite then dictInsert p.1 (mwMelgarF (floatScale 100 pgd) p.2, p.2) acc
        else acc) [] l1) = none := by
    rw [dictLookup_foldl_congr _ (fun d p k hk => dictLookup_mwStep_ne pgdDict d p k hk) l1 _
      code ?_]
    · rfl
    · intro p hp he
      refine (hnodup.2.2 (List.mem_map_of_mem Prod.fst hp) ?_).elim
      rw [he]
      exact List.mem_cons_self _ _
  cases hpgd : dictLookup code pgdDict with
  | none => simpa [hpgd] using hmid
  | some pgd =>
    by_cases hf : pgd.isfinite
    · simp only [hpgd, if_pos hf]
      exact dictLookup_dictInsert_self code _ _
    · simp only [hpgd, if_neg hf]
      exact hmid

/-- Witness for the amended C1: station `"AAAA"` with finite PGD `0.05`. -/
theorem mw_from_pgd_lookup_spec_witness :
    ((([("AAAA", (50:ℝ))] : List (String × ℝ)).map Prod.fst).Nodup) ∧
    (("AAAA", (50:ℝ)) ∈ [("AAAA", (50:ℝ))]) ∧
    dictLookup "AAAA" (mw_from_pgd [("AAAA", 50)] [("AAAA", PVal.num 0.05)]) =
      (match dictLookup "AAAA" [("AAAA", PVal.num 0.05)] with
       | none => none
       | some pgd =>
         if pgd.isfinite then some (mwMelgarF (floatScale 100 pgd) 50, 50) else none) := by
  refine ⟨by simp, by simp, ?_⟩
  exact mw_from_pgd_lookup_spec [("AAAA", 50)] [("AAAA", PVal.num 0.05)] "AAAA" 50
    (by simp) (by simp)

theorem selectStations_missing_key_error (tOrigin velMask maxd : ℝ)
    (pgdDict : List (String × Option (List ℝ × List ℝ))) (dd : List (String × ℝ))
    (code : String) (r : ℝ) (hmem : (code, r) ∈ dd) (hle : ¬r > maxd)
    (hlk : dictLookup code pgdDict = none) :
    selectStations tOrigin velMask maxd pgdDict dd = .error .keyError := by
  induction dd with
  | nil => cases hmem
  | cons p rest ih =>
    rcases List.mem_cons.mp hmem with heq | hmem'
    · subst heq
      simp only [selectStations]
      rw [if_neg hle, hlk]
    · have hrest := ih hmem'
      obtain ⟨pcode, pr⟩ := p
      simp only [selectStations]
      by_cases hgt : pr > maxd
      · rw [if_pos hgt, hrest]
      · rw [if_neg hgt]
        cases hpl : dictLookup pcode pgdDict with
        | none => rfl
        | some v =>
          cases v with
          | none => exact hrest
          | some series => rw [hrest]

/-- C9 counterexample: the distance map holds `"XXXX"` at 700 km, `sta_list`
is `["YYYY"]` (so `"XXXX"` is absent from the PGD dict), yet with an
effective max distance of 500 km the `or` short-circuits on
`r > max_distance` before the dict access: no `KeyError` is raised and the
call returns the null pair. -/
theorem mw_timeseries_far_station_no_key_error :
    (("XXXX", (700:ℝ)) ∈ [("XXXX", (700:ℝ))]) ∧
    ("XXXX" ∉ ["YYYY"]) ∧
    mwTimeseriesFromPgd 0 1 ["XXXX"] [("XXXX", 700)] (fun _ => some ([1], [10])) 3
      (some ["YYYY"]) (some 500) = .ok none := by
  refine ⟨by simp, by simp, ?_⟩
  simp only [mwTimeseriesFromPgd, selectStations, Option.getD_some]
  rw [if_pos (by norm_num : (700:ℝ) > 500)]
  rfl

/-- C9 amended: with a `sta_list` supplied, a call is not total as soon as
some station of the distance map whose distance does not exceed the effective
max distance is absent from `sta_list`: the lookup of that code in the
per-station PGD dict raises `KeyError` (stations beyond the max distance are
skipped before the lookup and cannot raise). -/
theorem mw_timeseries_missing_code_keyerror (tOrigin sRate velMask : ℝ)
    (codes : List String) (distDict : List (String × ℝ))
    (bufferPgd : String → Option (List ℝ × List ℝ)) (staList : Option (List String))
    (maxDistance : Option ℝ) (code : String) (r : ℝ)
    (hmem : (code, r) ∈ distDict)
    (hle : ¬r > maxDistance.getD defaultMaxDistance)
    (habs : code ∉ staList.getD codes) :
    mwTimeseriesFromPgd tOrigin sRate codes distDict bufferPgd velMask staList maxDistance =
      .error .keyError := by
  have hlk : dictLookup code ((staList.getD codes).map (fun c => (c, bufferPgd c))) = none := by
    have hfst : (((staList.getD codes).map (fun c => (c, bufferPgd c))).map Prod.fst) =
        staList.getD codes := by
      rw [List.map_map]
      have hco : (Prod.fst ∘ fun c => (c, bufferPgd c)) = id := rfl
      rw [hco, List.map_id]
    rw [dictLookup_eq_none_iff, hfst]
    exact habs
  simp only [mwTimeseriesFromPgd]
  rw [selectStations_missing_key_error _ _ _ _ _ code r hmem hle hlk]

/-- Witness for the amended C9: `"XXXX"` at 100 km (within the default 800 km)
with `sta_list = ["YYYY"]`. -/
theorem mw_timeseries_missing_code_keyerror_witness :
    (("XXXX", (100:ℝ)) ∈ [("XXXX", (100:ℝ))]) ∧
    (¬(100:ℝ) > (Option.getD none defaultMaxDistance)) ∧
    ("XXXX" ∉ (Option.getD (some ["YYYY"]) ["XXXX"])) ∧
    mwTimeseriesFromPgd 0 1 ["XXXX"] [("XXXX", 100)] (fun _ => some ([1], [10])) 3
      (some ["YYYY"]) none = .error .keyError := by
  have hle : ¬(100:ℝ) > (Option.getD none defaultMaxDistance) := by
    simp only [Option.getD_none, defaultMaxDistance]
    norm_num
  refine ⟨by simp, hle, by simp, ?_⟩
  exact mw_timeseries_missing_code_keyerror 0 1 3 ["XXXX"] [("XXXX", 100)]
    (fun _ => some ([1], [10])) (some ["YYYY"]) none "XXXX" 100 (by simp) hle (by simp)

/-- The accumulation loop completes without error exactly when every
surviving station's retained tail fits on the grid; a violation yields the
broadcast `ValueError`. -/
theorem accumLoop_shape_iff (pgdDict : List (String × Option (List ℝ × List ℝ)))
    (distDict : List (String × ℝ)) (tOrigin : ℝ) (tmw : List ℝ)
    (kept : List (String × ℝ)) (mc : List ℝ × List ℕ)
    (hwf : ∀ q ∈ kept, (∃ pgd t, dictLookup q.1 pgdDict = some (some (pgd, t)) ∧ t ≠ []) ∧
      (dictLookup q.1 distDict).isSome) :
    ((∃ out, accumLoop pgdDict distDict tOrigin tmw kept mc = .ok out) ↔
      (∀ q ∈ kept, ∀ pgd t, dictLookup q.1 pgdDict = some (some (pgd, t)) →
        ∀ tl, t.getLast? = some tl → ¬q.2 > tl →
        argminAbs tmw (t.getD (argminAbs t q.2) 0 - tOrigin) +
          (pgd.drop (argminAbs t q.2)).length ≤ tmw.length)) ∧
    ((¬∀ q ∈ kept, ∀ pgd t, dictLookup q.1 pgdDict = some (some (pgd, t)) →
        ∀ tl, t.getLast? = some tl → ¬q.2 > tl →
        argminAbs tmw (t.getD (argminAbs t q.2) 0 - tOrigin) +
          (pgd.drop (argminAbs t q.2)).length ≤ tmw.length) →
      accumLoop pgdDict distDict tOrigin tmw kept mc = .error .valueError) := by
  induction kept generalizing mc with
  | nil =>
    refine ⟨⟨fun _ q hq => absurd hq (List.not_mem_nil q), fun _ => ⟨mc, rfl⟩⟩, ?_⟩
    intro hB
    exact (hB (fun q hq => absurd hq (List.not_mem_nil q))).elim
  | cons hd rest ih =>
    obtain ⟨code, tm⟩ := hd
    obtain ⟨⟨pgd, t, hlp, htne⟩, hsome⟩ := hwf _ (List.mem_cons_self _ _)
    obtain ⟨r, hld⟩ := Option.isSome_iff_exists.mp hsome
    obtain ⟨mw, count⟩ := mc
    have hwfrest : ∀ q ∈ rest, (∃ pgd t, dictLookup q.1 pgdDict = some (some (pgd, t)) ∧
        t ≠ []) ∧ (dictLookup q.1 distDict).isSome :=
      fun q hq => hwf q (List.mem_cons_of_mem _ hq)
    have hgl : t.getLast? = some (t.getLast htne) := List.getLast?_eq_getLast t htne
    -- restate the head obligation through the deterministic lookups
    have hhead : ∀ pgd' t', dictLookup code pgdDict = some (some (pgd', t')) →
        pgd' = pgd ∧ t' = t := by
      intro pgd' t' hlp'
      rw [hlp] at hlp'
      have := Option.some.inj (Option.some.inj hlp')
      exact ⟨(Prod.mk.injEq _ _ _ _ ▸ this).1.symm, (Prod.mk.injEq _ _ _ _ ▸ this).2.symm⟩
    simp only [accumLoop, hlp, hgl, hld, List.length_map]
    by_cases hskip : tm > t.getLast htne
    · rw [if_pos hskip]
      have IH := ih (mw, count) hwfrest
      have hBiff : (∀ q ∈ (code, tm) :: rest, ∀ pgd' t',
            dictLookup q.1 pgdDict = some (some (pgd', t')) →
            ∀ tl, t'.getLast? = some tl → ¬q.2 > tl →
            argminAbs tmw (t'.getD (argminAbs t' q.2) 0 - tOrigin) +
              (pgd'.drop (argminAbs t' q.2)).length ≤ tmw.length) ↔
          (∀ q ∈ rest, ∀ pgd' t', dictLookup q.1 pgdDict = some (some (pgd', t')) →
            ∀ tl, t'.getLast? = some tl → ¬q.2 > tl →
            argminAbs tmw (t'.getD (argminAbs t' q.2) 0 - tOrigin) +
              (pgd'.drop (argminAbs t' q.2)).length ≤ tmw.length) := by
        constructor
        · intro hB q hq
          exact hB q (List.mem_cons_of_mem _ hq)
        · intro hB' q hq pgd' t' hlp' tl' hgl' hns
          rcases List.mem_cons.mp hq with rfl | hq'
          · obtain ⟨rfl, rfl⟩ := hhead pgd' t' hlp'
            rw [hgl] at hgl'
            exact absurd (Option.some.inj hgl' ▸ hskip) hns
          · exact hB' q hq' pgd' t' hlp' tl' hgl' hns
      refine ⟨IH.1.trans hBiff.symm, ?_⟩
      intro hnB
      exact IH.2 (fun hB' => hnB (hBiff.mpr hB'))
    · rw [if_neg hskip]
      by_cases hfit : argminAbs tmw (t.getD (argminAbs t tm) 0 - tOrigin) +
          (pgd.drop (argminAbs t tm)).length ≤ tmw.length
      · rw [if_pos hfit]
        have IH := ih (addSlice mw (argminAbs tmw (t.getD (argminAbs t tm) 0 - tOrigin))
          ((pgd.drop (argminAbs t tm)).map (fun p => mw_melgar (100 * p) r)),
          incSlice count (argminAbs tmw (t.getD (argminAbs t tm) 0 - tOrigin))
            (pgd.drop (argminAbs t tm)).length) hwfrest
        have hBiff : (∀ q ∈ (code, tm) :: rest, ∀ pgd' t',
              dictLookup q.1 pgdDict = some (some (pgd', t')) →
              ∀ tl, t'.getLast? = some tl → ¬q.2 > tl →
              argminAbs tmw (t'.getD (argminAbs t' q.2) 0 - tOrigin) +
                (pgd'.drop (argminAbs t' q.2)).length ≤ tmw.length) ↔
            (∀ q ∈ rest, ∀ pgd' t', dictLookup q.1 pgdDict = some (some (pgd', t')) →
              ∀ tl, t'.getLast? = some tl → ¬q.2 > tl →
              argminAbs tmw (t'.getD (argminAbs t' q.2) 0 - tOrigin) +
                (pgd'.drop (argminAbs t' q.2)).length ≤ tmw.length) := by
          constructor
          · intro hB q hq
            exact hB q (List.mem_cons_of_mem _ hq)
          · intro hB' q hq pgd' t' hlp' tl' hgl' hns
            rcases List.mem_cons.mp hq with rfl | hq'
            · obtain ⟨rfl, rfl⟩ := hhead pgd' t' hlp'
              exact hfit
            · exact hB' q hq' pgd' t' hlp' tl' hgl' hns
        refine ⟨IH.1.trans hBiff.symm, ?_⟩
        intro hnB
        exact IH.2 (fun hB' => hnB (hBiff.mpr hB'))
      · rw [if_neg hfit]
        constructor
        · constructor
          · rintro ⟨out, hout⟩
            cases hout
          · intro hB
            exact absurd (hB (code, tm) (List.mem_cons_self _ _) pgd t hlp
              (t.getLast htne) hgl hskip) hfit
        · intro _
          rfl

/-- C10: `mw_timeseries_from_pgd` assumes the retained tail of every surviving
station's PGD series fits on the remaining output grid.  When the pipeline
reaches the accumulation loop (selection succeeded with a nonempty station
list, time spans were read) and the kept stations are well formed (present in
the PGD dict with a nonempty time array, present in the distance dict), the
call completes without error exactly when for every station not skipped by
the arrival-mask check, the nearest-grid index of its first retained
timestamp plus the number of retained samples does not exceed the grid
length; when some surviving station violates that bound the call fails with
the numpy broadcast `ValueError` (shape mismatch) instead of truncating the
station's contribution. -/
theorem mw_timeseries_shape_spec (tOrigin sRate velMask : ℝ) (codes : List String)
    (distDict : List (String × ℝ)) (bufferPgd : String → Option (List ℝ × List ℝ))
    (staList : Option (List String)) (maxDistance : Option ℝ)
    (kept : List (String × ℝ)) (hl : List (ℝ × ℝ))
    (hsel : selectStations tOrigin velMask (maxDistance.getD defaultMaxDistance)
      ((staList.getD codes).map (fun c => (c, bufferPgd c))) distDict = .ok kept)
    (hne : kept.isEmpty = false)
    (hhl : headsLasts ((staList.getD codes).map (fun c => (c, bufferPgd c))) kept = .ok hl)
    (hwf : ∀ q ∈ kept, (∃ pgd t, dictLookup q.1
        ((staList.getD codes).map (fun c => (c, bufferPgd c))) = some (some (pgd, t)) ∧
        t ≠ []) ∧ (dictLookup q.1 distDict).isSome) :
    ((∃ out, mwTimeseriesFromPgd tOrigin sRate codes distDict bufferPgd velMask staList
        maxDistance = .ok out) ↔
      (∀ q ∈ kept, ∀ pgd t, dictLookup q.1
          ((staList.getD codes).map (fun c => (c, bufferPgd c))) = some (some (pgd, t)) →
        ∀ tl, t.getLast? = some tl → ¬q.2 > tl →
        argminAbs (arange (listMin (hl.map Prod.fst) - tOrigin)
            (listMax (hl.map Prod.snd) - tOrigin + 0.5 * (1 / sRate)) (1 / sRate))
            (t.getD (argminAbs t q.2) 0 - tOrigin) +
          (pgd.drop (argminAbs t q.2)).length ≤
          (arange (listMin (hl.map Prod.fst) - tOrigin)
            (listMax (hl.map Prod.snd) - tOrigin + 0.5 * (1 / sRate)) (1 / sRate)).length)) ∧
    ((¬∀ q ∈ kept, ∀ pgd t, dictLookup q.1
          ((staList.getD codes).map (fun c => (c, bufferPgd c))) = some (some (pgd, t)) →
        ∀ tl, t.getLast? = some tl → ¬q.2 > tl →
        argminAbs (arange (listMin (hl.map Prod.fst) - tOrigin)
            (listMax (hl.map Prod.snd) - tOrigin + 0.5 * (1 / sRate)) (1 / sRate))
            (t.getD (argminAbs t q.2) 0 - tOrigin) +
          (pgd.drop (argminAbs t q.2)).length ≤
          (arange (listMin (hl.map Prod.fst) - tOrigin)
            (listMax (hl.map Prod.snd) - tOrigin + 0.5 * (1 / sRate)) (1 / sRate)).length) →
      mwTimeseriesFromPgd tOrigin sRate codes distDict bufferPgd velMask staList
        maxDistance = .error .valueError) := by
  have HS := accumLoop_shape_iff ((staList.getD codes).map (fun c => (c, bufferPgd c)))
    distDict tOrigin
    (arange (listMin (hl.map Prod.fst) - tOrigin)
      (listMax (hl.map Prod.snd) - tOrigin + 0.5 * (1 / sRate)) (1 / sRate)) kept
    (List.replicate (arange (listMin (hl.map Prod.fst) - tOrigin)
      (listMax (hl.map Prod.snd) - tOrigin + 0.5 * (1 / sRate)) (1 / sRate)).length 0,
     List.replicate (arange (listMin (hl.map Prod.fst) - tOrigin)
      (listMax (hl.map Prod.snd) - tOrigin + 0.5 * (1 / sRate)) (1 / sRate)).length 0) hwf
  simp only [mwTimeseriesFromPgd]
  rw [hsel]
  simp only [hne, Bool.false_eq_true, if_false]
  rw [hhl]
  simp only []
  cases hacc : accumLoop ((staList.getD codes).map (fun c => (c, bufferPgd c))) distDict
      tOrigin
      (arange (listMin (hl.map Prod.fst) - tOrigin)
        (listMax (hl.map Prod.snd) - tOrigin + 0.5 * (1 / sRate)) (1 / sRate)) kept
      (List.replicate (arange (listMin (hl.map Prod.fst) - tOrigin)
        (listMax (hl.map Prod.snd) - tOrigin + 0.5 * (1 / sRate)) (1 / sRate)).length 0,
       List.replicate (arange (listMin (hl.map Prod.fst) - tOrigin)
        (listMax (hl.map Prod.snd) - tOrigin + 0.5 * (1 / sRate)) (1 / sRate)).length 0) with
  | error e =>
    rw [hacc] at HS
    have hex : ¬∃ out, (Except.error e : Except PyError (List ℝ × List ℕ)) =
        Except.ok out := by
      rintro ⟨out, hout⟩
      cases hout
    have hnB := fun hB => hex (HS.1.mpr hB)
    have herr : e = PyError.valueError := by
      have h2 := HS.2 hnB
      injection h2
    subst herr
    refine ⟨⟨?_, ?_⟩, ?_⟩
    · rintro ⟨out, hout⟩
      cases hout
    · intro hB
      exact (hnB hB).elim
    · intro _
      rfl
  | ok mc =>
    rw [hacc] at HS
    have hB := HS.1.mp ⟨mc, rfl⟩
    refine ⟨⟨fun _ => hB, fun _ => ⟨some (finalize mc.1 mc.2,
      arange (listMin (hl.map Prod.fst) - tOrigin)
        (listMax (hl.map Prod.snd) - tOrigin + 0.5 * (1 / sRate)) (1 / sRate)), rfl⟩⟩, ?_⟩
    intro hnB
    exact (hnB hB).elim

/-- Witness for C10, on the same one-station scenario as the C6 witness: the
single retained sample fits on the one-sample grid. -/
theorem mw_timeseries_shape_spec_witness :
    (selectStations 0 1 defaultMaxDistance [("AAAA", some ([(0.01:ℝ)], [(7:ℝ)]))]
      [("AAAA", 1)] = .ok [("AAAA", (1:ℝ))]) ∧
    (([("AAAA", (1:ℝ))] : List (String × ℝ)).isEmpty = false) ∧
    (headsLasts [("AAAA", some ([(0.01:ℝ)], [(7:ℝ)]))] [("AAAA", (1:ℝ))] =
      .ok [((7:ℝ), (7:ℝ))]) ∧
    (∀ q ∈ [("AAAA", (1:ℝ))],
      (∃ pgd t, dictLookup q.1 [("AAAA", some ([(0.01:ℝ)], [(7:ℝ)]))] =
        some (some (pgd, t)) ∧ t ≠ []) ∧
      (dictLookup q.1 [("AAAA", (1:ℝ))]).isSome) ∧
    (((∃ out, mwTimeseriesFromPgd 0 1 ["AAAA"] [("AAAA", 1)]
        (fun _ => some ([(0.01:ℝ)], [(7:ℝ)])) 1 none none = .ok out) ↔
      (∀ q ∈ [("AAAA", (1:ℝ))], ∀ pgd t,
        dictLookup q.1 [("AAAA", some ([(0.01:ℝ)], [(7:ℝ)]))] = some (some (pgd, t)) →
        ∀ tl, t.getLast? = some tl → ¬q.2 > tl →
        argminAbs (arange (listMin [(7:ℝ)] - 0) (listMax [(7:ℝ)] - 0 + 0.5 * (1 / 1)) (1 / 1))
            (t.getD (argminAbs t q.2) 0 - 0) +
          (pgd.drop (argminAbs t q.2)).length ≤
          (arange (listMin [(7:ℝ)] - 0) (listMax [(7:ℝ)] - 0 + 0.5 * (1 / 1))
            (1 / 1)).length)) ∧
     ((¬∀ q ∈ [("AAAA", (1:ℝ))], ∀ pgd t,
        dictLookup q.1 [("AAAA", some ([(0.01:ℝ)], [(7:ℝ)]))] = some (some (pgd, t)) →
        ∀ tl, t.getLast? = some tl → ¬q.2 > tl →
        argminAbs (arange (listMin [(7:ℝ)] - 0) (listMax [(7:ℝ)] - 0 + 0.5 * (1 / 1)) (1 / 1))
            (t.getD (argminAbs t q.2) 0 - 0) +
          (pgd.drop (argminAbs t q.2)).length ≤
          (arange (listMin [(7:ℝ)] - 0) (listMax [(7:ℝ)] - 0 + 0.5 * (1 / 1))
            (1 / 1)).length) →
      mwTimeseriesFromPgd 0 1 ["AAAA"] [("AAAA", 1)]
        (fun _ => some ([(0.01:ℝ)], [(7:ℝ)])) 1 none none = .error .valueError)) := by
  have hsel : selectStations 0 1 defaultMaxDistance
      [("AAAA", some ([(0.01:ℝ)], [(7:ℝ)]))] [("AAAA", (1:ℝ))] = .ok [("AAAA", (1:ℝ))] := by
    simp only [selectStations, dictLookup]
    rw [if_neg (show ¬(1:ℝ) > defaultMaxDistance by rw [defaultMaxDistance]; norm_num)]
    norm_num
  have hhl : headsLasts [("AAAA", some ([(0.01:ℝ)], [(7:ℝ)]))] [("AAAA", (1:ℝ))] =
      .ok [((7:ℝ), (7:ℝ))] := by
    simp only [headsLasts, dictLookup]
    norm_num
  have hwf : ∀ q ∈ [("AAAA", (1:ℝ))],
      (∃ pgd t, dictLookup q.1 [("AAAA", some ([(0.01:ℝ)], [(7:ℝ)]))] =
        some (some (pgd, t)) ∧ t ≠ []) ∧
      (dictLookup q.1 [("AAAA", (1:ℝ))]).isSome := by
    intro q hq
    rw [List.mem_singleton.mp hq]
    exact ⟨⟨[(0.01:ℝ)], [(7:ℝ)], rfl, by simp⟩, rfl⟩
  exact ⟨hsel, rfl, hhl, hwf, mw_timeseries_shape_spec 0 1 1 ["AAAA"] [("AAAA", 1)]
    (fun _ => some ([(0.01:ℝ)], [(7:ℝ)])) none none [("AAAA", (1:ℝ))] [((7:ℝ), (7:ℝ))]
    hsel rfl hhl hwf⟩

theorem addSlice_length (mw : List ℝ) (i1 : ℕ) (aux : List ℝ) :
    (addSlice mw i1 aux).length = mw.length := by
  rw [addSlice, List.length_map, List.length_range]

theorem incSlice_length (count : List ℕ) (i1 n : ℕ) :
    (incSlice count i1 n).length = count.length := by
  rw [incSlice, List.length_map, List.length_range]

theorem addSlice_getD (mw : List ℝ) (i1 : ℕ) (aux : List ℝ) (i : ℕ) (hi : i < mw.length) :
    (addSlice mw i1 aux).getD i 0 =
      if i1 ≤ i ∧ i < i1 + aux.length then mw.getD i 0 + aux.getD (i - i1) 0
      else mw.getD i 0 := by
  rw [addSlice, List.getD_eq_getElem?_getD, List.getElem?_map, List.getElem?_range hi]
  rfl

theorem incSlice_getD (count : List ℕ) (i1 n : ℕ) (i : ℕ) (hi : i < count.length) :
    (incSlice count i1 n).getD i 0 =
      if i1 ≤ i ∧ i < i1 + n then count.getD i 0 + 1 else count.getD i 0 := by
  rw [incSlice, List.getD_eq_getElem?_getD, List.getElem?_map, List.getElem?_range hi]
  rfl

theorem slice_step_preserves (mw : List ℝ) (count : List ℕ) (i1 : ℕ) (aux : List ℝ)
    (hlen : mw.length = count.length)
    (hz : ∀ i, count.getD i 0 = 0 → mw.getD i 0 = 0) :
    (addSlice mw i1 aux).length = (incSlice count i1 aux.length).length ∧
    (∀ i, (incSlice count i1 aux.length).getD i 0 = 0 →
      (addSlice mw i1 aux).getD i 0 = 0) := by
  refine ⟨by rw [addSlice_length, incSlice_length, hlen], ?_⟩
  intro i hzi
  by_cases hilt : i < count.length
  · rw [incSlice_getD _ _ _ _ hilt] at hzi
    rw [addSlice_getD _ _ _ _ (by rw [hlen]; exact hilt)]
    by_cases hin : i1 ≤ i ∧ i < i1 + aux.length
    · rw [if_pos hin] at hzi
      exact absurd hzi (Nat.succ_ne_zero _)
    · rw [if_neg hin] at hzi
      rw [if_neg hin]
      exact hz i hzi
  · rw [List.getD_eq_default _ _ (by rw [addSlice_length, hlen]; omega)]

theorem accumLoop_ok_invariant (pgdDict : List (String × Option (List ℝ × List ℝ)))
    (distDict : List (String × ℝ)) (tOrigin : ℝ) (tmw : List ℝ)
    (kept : List (String × ℝ)) :
    ∀ mw count sums counts,
      accumLoop pgdDict distDict tOrigin tmw kept (mw, count) = .ok (sums, counts) →
      mw.length = count.length →
      (∀ i, count.getD i 0 = 0 → mw.getD i 0 = 0) →
      sums.length = mw.length ∧ counts.length = count.length ∧
        (∀ i, counts.getD i 0 = 0 → sums.getD i 0 = 0) := by
  induction kept with
  | nil =>
    intro mw count sums counts h hlen hz
    simp only [accumLoop] at h
    injection h with h'
    have h1 : mw = sums := congrArg Prod.fst h'
    have h2 : count = counts := congrArg Prod.snd h'
    subst h1
    subst h2
    exact ⟨rfl, rfl, hz⟩
  | cons hd rest ih =>
    intro mw count sums counts h hlen hz
    obtain ⟨code, tm⟩ := hd
    simp only [accumLoop] at h
    split at h
    · cases h
    · cases h
    · rename_i scr1 pgd t heq1
      split at h
      · cases h
      · rename_i scr2 tl heq2
        split at h
        · exact ih _ _ _ _ h hlen hz
        · split at h
          · cases h
          · rename_i scr3 r heq3
            split at h
            · have hstep := slice_step_preserves mw count
                (argminAbs tmw (t.getD (argminAbs t tm) 0 - tOrigin))
                ((pgd.drop (argminAbs t tm)).map (fun p => mw_melgar (100 * p) r)) hlen hz
              have hinv := ih _ _ _ _ h hstep.1 hstep.2
              rw [addSlice_length] at hinv
              rw [incSlice_length] at hinv
              exact hinv
            · cases h

theorem finalize_length (mw : List ℝ) (count : List ℕ) :
    (finalize mw count).length = min mw.length count.length := by
  rw [finalize, List.length_map, List.length_zip]

theorem finalize_getD (mw : List ℝ) (count : List ℕ) (i : ℕ)
    (h1 : i < mw.length) (h2 : i < count.length) :
    (finalize mw count).getD i PVal.nan =
      (if mw.getD i 0 / ((if count.getD i 0 = 0 then 1 else count.getD i 0 : ℕ) : ℝ) < 1e-5
       then PVal.nan
       else PVal.num (mw.getD i 0 /
         ((if count.getD i 0 = 0 then 1 else count.getD i 0 : ℕ) : ℝ))) := by
  have hzip : (mw.zip count)[i]? = some (mw[i], count[i]) := by
    rw [List.getElem?_zip_eq_some]
    exact ⟨List.getElem?_eq_getElem h1, List.getElem?_eq_getElem h2⟩
  have hmwd : mw.getD i 0 = mw[i] := by
    rw [List.getD_eq_getElem?_getD, List.getElem?_eq_getElem h1]
    rfl
  have hcd : count.getD i 0 = count[i] := by
    rw [List.getD_eq_getElem?_getD, List.getElem?_eq_getElem h2]
    rfl
  rw [finalize, List.getD_eq_getElem?_getD, List.getElem?_map, hzip, hmwd, hcd]
  rfl

theorem getD_replicate_zero_real (n i : ℕ) : (List.replicate n (0:ℝ)).getD i 0 = 0 := by
  rw [List.getD_eq_getElem?_getD]
  by_cases h : i < n
  · rw [List.getElem?_eq_getElem (by simpa using h)]
    simp [List.getElem_replicate]
  · rw [List.getElem?_eq_none (by simpa using h)]
    rfl

/-- C6: when `mw_timeseries_from_pgd` returns a non-null series, that series
is the finalization of the accumulated per-sample sums and contributor
counts: a sample with zero contributors carries NaN (its running sum is zero,
the count is forced to one, and `0 < 1e-5` masks it), a sample whose
contributor-averaged Mw is below `1e-5` carries NaN, and every other sample
equals the sum of the contributing stations' per-sample Mw values divided by
the number of contributors at that sample. -/
theorem mw_timeseries_finalize_spec (tOrigin sRate velMask : ℝ) (codes : List String)
    (distDict : List (String × ℝ)) (bufferPgd : String → Option (List ℝ × List ℝ))
    (staList : Option (List String)) (maxDistance : Option ℝ)
    (mwL : List PVal) (tL : List ℝ)
    (hok : mwTimeseriesFromPgd tOrigin sRate codes distDict bufferPgd velMask staList
      maxDistance = .ok (some (mwL, tL))) :
    ∃ kept sums counts,
      selectStations tOrigin velMask (maxDistance.getD defaultMaxDistance)
        ((staList.getD codes).map (fun c => (c, bufferPgd c))) distDict = .ok kept ∧
      accumLoop ((staList.getD codes).map (fun c => (c, bufferPgd c))) distDict tOrigin tL
        kept (List.replicate tL.length 0, List.replicate tL.length 0) = .ok (sums, counts) ∧
      mwL = finalize sums counts ∧
      sums.length = tL.length ∧ counts.length = tL.length ∧
      ∀ i, i < tL.length →
        ((counts.getD i 0 = 0 → mwL.getD i PVal.nan = PVal.nan) ∧
         (sums.getD i 0 / ((if counts.getD i 0 = 0 then 1 else counts.getD i 0 : ℕ) : ℝ) <
            1e-5 → mwL.getD i PVal.nan = PVal.nan) ∧
         (¬sums.getD i 0 / ((if counts.getD i 0 = 0 then 1 else counts.getD i 0 : ℕ) : ℝ) <
            1e-5 → counts.getD i 0 ≠ 0 ∧
            mwL.getD i PVal.nan = PVal.num (sums.getD i 0 / (counts.getD i 0 : ℝ)))) := by
  simp only [mwTimeseriesFromPgd] at hok
  split at hok
  · cases hok
  · rename_i kept hsel
    split at hok
    · simp at hok
    · split at hok
      · cases hok
      · rename_i hl hhl
        split at hok
        · cases hok
        · rename_i mc hacc
          obtain ⟨mw0, count0⟩ := mc
          injection hok with hok'
          injection hok' with hok''
          have hfin : finalize mw0 count0 = mwL := congrArg Prod.fst hok''
          have htmw := congrArg Prod.snd hok''
          subst hfin
          subst htmw
          obtain ⟨hl1, hl2, hzz⟩ := accumLoop_ok_invariant _ distDict tOrigin _ kept
            _ _ mw0 count0 hacc
            (by rw [List.length_replicate, List.length_replicate])
            (fun i _ => getD_replicate_zero_real _ i)
          rw [List.length_replicate] at hl1 hl2
          refine ⟨kept, mw0, count0, hsel, hacc, rfl, hl1, hl2, ?_⟩
          intro i hi
          have hi1 : i < mw0.length := by rw [hl1]; exact hi
          have hi2 : i < count0.length := by rw [hl2]; exact hi
          have hfd := finalize_getD mw0 count0 i hi1 hi2
          refine ⟨?_, ?_, ?_⟩
          · intro hc0
            rw [hfd, hzz i hc0, hc0]
            norm_num
          · intro hlt
            rw [hfd, if_pos hlt]
          · intro hnlt
            have hc0 : count0.getD i 0 ≠ 0 := by
              intro hc
              apply hnlt
              rw [hzz i hc, hc]
              norm_num
            refine ⟨hc0, ?_⟩
            rw [hfd, if_neg hnlt, if_neg hc0]

/-- Witness for C6: one station at 1 km with a single PGD sample of 0.01 m
(1 cm) at t = 7 s, origin time 0, sampling rate 1 Hz, velocity mask 1 km/s —
the returned series is `[Mw = 4.434/1.047]` on the one-sample grid `[7]`. -/
theorem mw_timeseries_finalize_spec_witness :
    mwTimeseriesFromPgd 0 1 ["AAAA"] [("AAAA", 1)]
      (fun _ => some ([(0.01:ℝ)], [(7:ℝ)])) 1 none none =
      .ok (some ([PVal.num (4.434 / 1.047)], [(7:ℝ)])) ∧
    (∃ kept sums counts,
      selectStations 0 1 defaultMaxDistance [("AAAA", some ([(0.01:ℝ)], [(7:ℝ)]))]
        [("AAAA", 1)] = .ok kept ∧
      accumLoop [("AAAA", some ([(0.01:ℝ)], [(7:ℝ)]))] [("AAAA", 1)] 0 [(7:ℝ)] kept
        (List.replicate ([(7:ℝ)]).length 0, List.replicate ([(7:ℝ)]).length 0) =
        .ok (sums, counts) ∧
      [PVal.num (4.434 / 1.047)] = finalize sums counts ∧
      sums.length = ([(7:ℝ)]).length ∧ counts.length = ([(7:ℝ)]).length ∧
      ∀ i, i < ([(7:ℝ)]).length →
        ((counts.getD i 0 = 0 → ([PVal.num (4.434 / 1.047)]).getD i PVal.nan = PVal.nan) ∧
         (sums.getD i 0 / ((if counts.getD i 0 = 0 then 1 else counts.getD i 0 : ℕ) : ℝ) <
            1e-5 → ([PVal.num (4.434 / 1.047)]).getD i PVal.nan = PVal.nan) ∧
         (¬sums.getD i 0 / ((if counts.getD i 0 = 0 then 1 else counts.getD i 0 : ℕ) : ℝ) <
            1e-5 → counts.getD i 0 ≠ 0 ∧
            ([PVal.num (4.434 / 1.047)]).getD i PVal.nan =
              PVal.num (sums.getD i 0 / (counts.getD i 0 : ℝ))))) := by
  have hsel : selectStations 0 1 defaultMaxDistance
      [("AAAA", some ([(0.01:ℝ)], [(7:ℝ)]))] [("AAAA", (1:ℝ))] = .ok [("AAAA", (1:ℝ))] := by
    simp only [selectStations, dictLookup]
    rw [if_neg (show ¬(1:ℝ) > defaultMaxDistance by rw [defaultMaxDistance]; norm_num)]
    norm_num
  have hhl : headsLasts [("AAAA", some ([(0.01:ℝ)], [(7:ℝ)]))] [("AAAA", (1:ℝ))] =
      .ok [((7:ℝ), (7:ℝ))] := by
    simp only [headsLasts, dictLookup]
    norm_num
  have harange : arange (listMin [(7:ℝ)] - 0) (listMax [(7:ℝ)] - 0 + 0.5 * (1 / 1)) (1 / 1) =
      [(7:ℝ)] := by
    simp only [arange, listMin, listMax, List.foldl_nil]
    rw [show ((7:ℝ) - 0 + 0.5 * (1 / 1) - (7 - 0)) / (1 / 1) = 1 / 2 by norm_num]
    rw [show ⌈(1 / 2 : ℝ)⌉ = 1 from by rw [Int.ceil_eq_iff]; norm_num]
    simp only [Int.toNat_one, List.range_succ, List.range_zero, List.nil_append,
      List.map_cons, List.map_nil]
    norm_num
  have haccum : accumLoop [("AAAA", some ([(0.01:ℝ)], [(7:ℝ)]))] [("AAAA", (1:ℝ))] 0 [(7:ℝ)]
      [("AAAA", (1:ℝ))]
      (List.replicate ([(7:ℝ)]).length 0, List.replicate ([(7:ℝ)]).length 0) =
      .ok ([mw_melgar 1 1], [1]) := by
    simp only [accumLoop, dictLookup, List.length_singleton, List.replicate_one]
    norm_num
    simp only [argminAbs, argminAbsGo, List.drop_zero]
    norm_num [addSlice, incSlice, List.getD, List.range_succ, List.range_zero]
  have hfin : finalize [mw_melgar 1 1] [1] = [PVal.num (4.434 / 1.047)] := by
    have hm : mw_melgar (1:ℝ) 1 = 4.434 / 1.047 := by
      rw [mw_melgar, Real.logb_one]
      norm_num
    simp only [finalize, List.zip_cons_cons, List.zip_nil_right, List.map_cons, List.map_nil]
    rw [hm]
    norm_num
  have hok : mwTimeseriesFromPgd 0 1 ["AAAA"] [("AAAA", 1)]
      (fun _ => some ([(0.01:ℝ)], [(7:ℝ)])) 1 none none =
      .ok (some ([PVal.num (4.434 / 1.047)], [(7:ℝ)])) := by
    simp only [mwTimeseriesFromPgd, Option.getD_none, List.map_cons, List.map_nil]
    rw [hsel]
    simp only [List.isEmpty_cons, Bool.false_eq_true, if_false]
    rw [hhl]
    simp only [List.map_cons, List.map_nil]
    rw [harange]
    rw [haccum]
    simp only []
    rw [hfin]
  exact ⟨hok, mw_timeseries_finalize_spec 0 1 1 ["AAAA"] [("AAAA", 1)]
    (fun _ => some ([(0.01:ℝ)], [(7:ℝ)])) none none
    [PVal.num (4.434 / 1.047)] [(7:ℝ)] hok⟩

end
